import Mathlib

set_option maxHeartbeats 1000000

namespace PolyWatcher

/-- Configuration fields of the Go struct Watcher (src/main.go lines 16-29)
that the functional model depends on.  The fields dir and interval drive
I/O and timing only: the watched root is passed to hashDir as a WalkRoot
value whose name is the base name of dir, and the polling sleep has no
functional content. -/
structure Config where
  buildCmd : String
  runCmd : String
  includes : List String
  excludes : List String
  depFile : String
  depCmd : String
deriving Repr, DecidableEq

/-- Go strings.HasPrefix on the model's strings: byte-prefix of valid UTF-8
strings coincides with character-list prefix, rendered structurally so that
concrete instances evaluate inside the kernel. -/
def strStarts (s p : String) : Bool := p.data.isPrefixOf s.data

/-- Go strings.HasSuffix, as character-list suffix. -/
def strEnds (s p : String) : Bool := p.data.isSuffixOf s.data

/-- Go shouldProcess, lines 46 and 54: a rule matches a relative path when
the path starts with or ends with the rule string (strings.HasPrefix or
strings.HasSuffix). -/
def matchesRule (relPath rule : String) : Bool :=
  strStarts relPath rule || strEnds relPath rule

/-- Go shouldProcess (src/main.go lines 44-59): iterate over excludes and
return false on the first match; then, if the include list is empty, return
true; otherwise return true exactly when some include rule matches.  The
early-return loops of the source are rendered with List.any. -/
def shouldProcess (w : Config) (relPath : String) : Bool :=
  if w.excludes.any (fun ex => matchesRule relPath ex) then false
  else if w.includes.length == 0 then true
  else w.includes.any (fun inc => matchesRule relPath inc)

/-- FNV-1a 64-bit offset basis, the initial state of hash/fnv.New64a(). -/
def fnvOffsetBasis : Nat := 14695981039346656037

/-- FNV-1a 64-bit prime. -/
def fnvPrime : Nat := 1099511628211

/-- One byte step of FNV-1a 64: xor then multiply, reduced modulo 2 to the
64th as in Go's uint64 arithmetic. -/
def fnvStep (h b : Nat) : Nat := ((h ^^^ b) * fnvPrime) % 2 ^ 64

/-- Model of h.Write on a string argument.  Go writes the UTF-8 bytes; the
model folds over the string's characters, which coincides with the bytes on
ASCII input and is an injective rendering otherwise.  The claims depend only
on which strings are fed and on equality of digests, not on bit-for-bit
compatibility with Go. -/
def fnvWrite (h : Nat) (s : String) : Nat :=
  s.data.foldl (fun a c => fnvStep a c.toNat) h

/-- A filesystem entry as seen by filepath.Walk.  Modification times are
abstracted to Nat (Go feeds info.ModTime().String() to the hash and compares
time.Time values for equality; an injective rendering toString of the Nat
stands in for the textual form).  badEntry models a child whose lstat fails:
filepath.Walk then invokes the callback with a nil FileInfo and a non-nil
error. -/
inductive FSEntry where
  | file (name : String) (size : Nat) (mtime : Nat)
  | dir (name : String) (entries : List FSEntry)
  | badEntry (name : String)
deriving Repr

/-- The root argument of filepath.Walk: either the lstat of the root path
itself fails, or the root is a directory with a base name and entries.  (The
program always watches a directory; main hardcodes dir to the string made of
one dot.) -/
inductive WalkRoot where
  | inaccessible (name : String)
  | rootDir (name : String) (entries : List FSEntry)
deriving Repr

/-- Result alternatives of the walk callback as filepath.Walk sees them:
nil, filepath.SkipDir, or any other error. -/
inductive WalkFnResult where
  | ok
  | skipDir
  | fail (msg : String)
deriving Repr, DecidableEq

/-- State captured by the hashDir closure: the running hash accumulator, the
depChanged flag, and the field w.prevDepMTime which the closure mutates in
place (line 99). -/
structure ScanState where
  hash : Nat
  depChanged : Bool
  depMTime : Nat
deriving Repr, DecidableEq

/-- Go filepath.Base restricted to the slash-free or slash-separated paths
the watcher handles: the component after the last separator.  (Paths with a
trailing separator do not arise: depFile is a flag value naming a file.) -/
def baseName (p : String) : String :=
  ⟨(p.data.reverse.takeWhile (fun c => !(c == '/'))).reverse⟩

/-- Relative path of a child named n inside the directory whose own relative
path is pre; filepath.Walk joins with the separator, and filepath.Rel
against the root gives back exactly this joined form.  The root's children
have pre equal to the empty string. -/
def joinRel (pre n : String) : String :=
  if pre = "" then n else pre ++ "/" ++ n

/-- Go line 79: info.Name() != "." && info.Name()[0] == '.'.  Indexing byte
zero coincides with startsWith on the nonempty names the filesystem
produces. -/
def hiddenDir (n : String) : Bool :=
  !(n == ".") && strStarts n "."

/-- Body of the walk callback for a regular file (src/main.go lines 86-102):
apply shouldProcess to the relative path and skip rejected files entirely;
for an accepted file feed relative path, decimal size and modification-time
rendering to the hash; then, if a dependency file is configured and the
file's base name (filepath.Base of the full path, i.e. its name n) equals
the dependency file's base name, compare its modification time with the
stored previous one and on difference set depChanged and overwrite the
stored time. -/
def visitFile (w : Config) (relPath n : String) (size mt : Nat) (st : ScanState) : ScanState :=
  if !(shouldProcess w relPath) then st
  else
    let h := fnvWrite (fnvWrite (fnvWrite st.hash relPath) (toString size)) (toString mt)
    if !(w.depFile == "") && n == baseName w.depFile then
      if !(mt == st.depMTime) then ⟨h, true, mt⟩
      else ⟨h, st.depChanged, st.depMTime⟩
    else ⟨h, st.depChanged, st.depMTime⟩

mutual
/-- One child visit of Go's filepath.walk specialised to the hashDir
callback.  A child whose lstat fails is passed to the callback with a
non-nil error, which the callback logs and ignores (lines 66-69), so the
walk continues.  A regular file goes through visitFile.  A directory first
has the callback applied to it: a hidden name other than the one-dot name
yields filepath.SkipDir (lines 77-83), otherwise the walk descends into its
entries. -/
def walkEntry (w : Config) (pre : String) : FSEntry → ScanState → ScanState × WalkFnResult
  | .badEntry _, st => (st, .ok)
  | .file n size mt, st => (visitFile w (joinRel pre n) n size mt st, .ok)
  | .dir n es, st =>
      if hiddenDir n then (st, .skipDir)
      else walkList w (joinRel pre n) es st

/-- The loop over a directory's children in Go's filepath.walk: a SkipDir
from a child directory skips only that subtree and the loop continues; any
other error aborts the walk and propagates. -/
def walkList (w : Config) (pre : String) : List FSEntry → ScanState → ScanState × WalkFnResult
  | [], st => (st, .ok)
  | e :: es, st =>
      let r := walkEntry w pre e st
      match r.2 with
      | .fail msg => (r.1, .fail msg)
      | _ => walkList w pre es r.1
end

/-- Result of hashDir (src/main.go lines 61-109): the 64-bit digest, the
depChanged flag, the possibly updated w.prevDepMTime field, and the error
return value. -/
structure ScanResult where
  hash : Nat
  depChanged : Bool
  depMTime : Nat
  err : Option String
deriving Repr, DecidableEq

/-- Go hashDir (src/main.go lines 61-109) around filepath.Walk.  When lstat
of the root fails, filepath.Walk hands the error to the callback, which logs
it and returns nil, and Walk then returns nil: hashDir returns the digest of
the untouched accumulator with a nil error.  A root directory whose name is
hidden (other than the one-dot name) makes the callback return SkipDir,
which Walk converts to a nil error at top level.  Otherwise the walk
descends; a non-SkipDir error from the walk would reach line 105 and produce
the (0, false, err) return. -/
def hashDir (w : Config) (root : WalkRoot) (prevDepMTime : Nat) : ScanResult :=
  let st0 : ScanState := ⟨fnvOffsetBasis, false, prevDepMTime⟩
  match root with
  | .inaccessible _ => ⟨st0.hash, st0.depChanged, st0.depMTime, none⟩
  | .rootDir n es =>
      let r := if hiddenDir n then (st0, WalkFnResult.skipDir) else walkList w "" es st0
      match r.2 with
      | .fail msg => ⟨0, false, r.1.depMTime, some msg⟩
      | _ => ⟨r.1.hash, r.1.depChanged, r.1.depMTime, none⟩

/-- Outcome environment for shell commands: the exit status Go's cmd.Run()
observes for a given command line (0 means success).  The watcher passes
every command to /bin/sh -c and inherits stdout and stderr; only the exit
status is functionally relevant. -/
def ExecEnv : Type := String → Nat

/-- Result of runShell: whether it reported success, and the shell command
lines it spawned (at most one). -/
structure ShellResult where
  ok : Bool
  spawned : List String
deriving Repr, DecidableEq

/-- Go runShell (src/main.go lines 111-119): the empty command returns nil
immediately without creating a process; otherwise one shell is spawned with
the string as its command line, the call blocks until it terminates, and the
result is an error exactly when the exit status is non-zero. -/
def runShell (env : ExecEnv) (command : String) : ShellResult :=
  if command = "" then ⟨true, []⟩
  else ⟨env command == 0, [command]⟩

/-- Steps of one watch cycle that the trace records: the dependency command,
the build command, and the startApp call. -/
inductive Action where
  | depStep
  | buildStep
  | restartStep
deriving Repr, DecidableEq

/-- Result of runBuild: success flag and the steps attempted in order. -/
structure BuildResult where
  ok : Bool
  trace : List Action
deriving Repr, DecidableEq

/-- Go runBuild (src/main.go lines 121-130): when depChanged holds and a
dependency command is configured, run it first and abort on its failure;
then run the build command and report its outcome. -/
def runBuild (env : ExecEnv) (w : Config) (depChanged : Bool) : BuildResult :=
  if depChanged && !(w.depCmd == "") then
    if (runShell env w.depCmd).ok then
      ⟨(runShell env w.buildCmd).ok, [.depStep, .buildStep]⟩
    else ⟨false, [.depStep]⟩
  else ⟨(runShell env w.buildCmd).ok, [.buildStep]⟩

/-- The two fields of Watcher that the loop body of Run reads and writes:
prevHash (line 171 and 173) and prevDepMTime (mutated inside hashDir). -/
structure LoopState where
  prevHash : Nat
  prevDepMTime : Nat
deriving Repr, DecidableEq

/-- Result of one iteration of Run's infinite loop: the state left for the
next tick, the steps taken, and whether the scan-error branch was taken. -/
structure CycleResult where
  st : LoopState
  trace : List Action
  scanErr : Bool
deriving Repr, DecidableEq

/-- One iteration of Go Run (src/main.go lines 163-187).  On a scan error
the loop logs, sleeps and continues, leaving prevHash untouched (prevDepMTime
keeps whatever mutations the walk already made, since hashDir writes it in
place).  When the new hash differs from prevHash, prevHash is overwritten
first, then runBuild is attempted, and only on its success startApp runs; a
startApp failure is only logged and so does not show up in the state. -/
def runCycle (env : ExecEnv) (w : Config) (root : WalkRoot) (st : LoopState) : CycleResult :=
  let r := hashDir w root st.prevDepMTime
  match r.err with
  | some _ => ⟨⟨st.prevHash, r.depMTime⟩, [], true⟩
  | none =>
    if !(r.hash == st.prevHash) then
      let b := runBuild env w r.depChanged
      if b.ok then ⟨⟨r.hash, r.depMTime⟩, b.trace ++ [.restartStep], false⟩
      else ⟨⟨r.hash, r.depMTime⟩, b.trace, false⟩
    else ⟨⟨st.prevHash, r.depMTime⟩, [], false⟩

/-- Result of startApp beyond the new handle: whether it returned nil,
whether a previous process was killed and its handle cleared, and the
command lines handed to /bin/sh -c. -/
structure StartAppResult where
  newProcess : Option Nat
  ok : Bool
  killedPrev : Bool
  shellSpawns : List String
deriving Repr, DecidableEq

/-- Go startApp (src/main.go lines 132-160) under the lock.  cur is the
handle w.process on entry, modelled as the pid of the tracked process; a
previous handle is killed and cleared unconditionally; then a shell is
spawned from w.runCmd without any emptiness check.  spawnOk tells whether
cmd.Start() succeeds, pid names the fresh process on success.  On success
the handle stores the new process; on failure the function returns the
error with the handle left cleared. -/
def startApp (w : Config) (cur : Option Nat) (spawnOk : Bool) (pid : Nat) : StartAppResult :=
  if spawnOk then ⟨some pid, true, cur.isSome, [w.runCmd]⟩
  else ⟨none, false, cur.isSome, [w.runCmd]⟩

/-- Events mutating the supervisor's shared handle, each performed under
processMu: a restart whose spawn succeeds with a fresh pid, a restart whose
spawn fails, and the exit-watcher goroutine of the process with the given
pid observing its exit. -/
inductive SupEv where
  | restartOk (pid : Nat)
  | restartFail
  | appExit (pid : Nat)
deriving Repr, DecidableEq

/-- Effect of one supervisor event on the handle.  The restart cases are the
handle component of startApp.  The appExit case is the body of the goroutine
at src/main.go lines 152-158: after cmd.Wait() returns it locks processMu
and assigns nil to w.process unconditionally, with no check that the handle
still refers to the exited process. -/
def supStep (w : Config) (cur : Option Nat) : SupEv → Option Nat
  | .restartOk pid => (startApp w cur true pid).newProcess
  | .restartFail => (startApp w cur false 0).newProcess
  | .appExit _ => none

/-- The handle after a serialised sequence of supervisor events, starting
from no tracked process. -/
def supRun (w : Config) (evs : List SupEv) : Option Nat :=
  evs.foldl (supStep w) none

/-- Follows the spec's words for the exit-watcher, spec section 4.4 step 5
and section 9: clear the handle only if it still refers to this process
(clearIfMatches); restarts behave as in the code. -/
def clearIfMatchesStep (w : Config) (cur : Option Nat) : SupEv → Option Nat
  | .restartOk pid => (startApp w cur true pid).newProcess
  | .restartFail => (startApp w cur false 0).newProcess
  | .appExit pid => if cur == some pid then none else cur

/-- The handle after a sequence of supervisor events under the spec's
clearIfMatches discipline. -/
def clearIfMatchesRun (w : Config) (evs : List SupEv) : Option Nat :=
  evs.foldl (clearIfMatchesStep w) none

/-- Pids spawned by the restart events of a trace, in order.  Distinctness
of this list models the freshness of process identities (each successful
cmd.Start() yields a new exec.Cmd handle and a live pid distinct from every
tracked one). -/
def spawnedPids : List SupEv → List Nat
  | [] => []
  | .restartOk pid :: evs => pid :: spawnedPids evs
  | _ :: evs => spawnedPids evs

mutual
/-- Modification times, in traversal order, of the files of one entry that
the dependency comparison of hashDir lines 96-101 looks at: files accepted
by shouldProcess whose name equals the base name of the configured
dependency file, with hidden directories and inaccessible entries skipped
exactly as the walk skips them.  This is the vocabulary in which the
dependency-detection claim is stated; the theorems relate hashDir to it. -/
def depTimesEntry (w : Config) (pre : String) : FSEntry → List Nat
  | .badEntry _ => []
  | .file n _ mt =>
      if shouldProcess w (joinRel pre n) && (!(w.depFile == "") && n == baseName w.depFile)
      then [mt] else []
  | .dir n es => if hiddenDir n then [] else depTimesList w (joinRel pre n) es

/-- depTimesEntry over a list of siblings. -/
def depTimesList (w : Config) (pre : String) : List FSEntry → List Nat
  | [] => []
  | e :: es => depTimesEntry w pre e ++ depTimesList w pre es
end

/-- Dependency-relevant modification times of a whole walk root. -/
def depTimes (w : Config) (root : WalkRoot) : List Nat :=
  match root with
  | .inaccessible _ => []
  | .rootDir n es => if hiddenDir n then [] else depTimesList w "" es

/-- The fold that the dependency comparison performs on those times: carry
the depChanged flag and the stored time, and on every time different from
the carried one set the flag and replace the time. -/
def depFold : Bool × Nat → List Nat → Bool × Nat
  | cp, [] => cp
  | cp, mt :: ms => depFold (if !(mt == cp.2) then (true, mt) else cp) ms

mutual
/-- The walk callback never produces an error other than SkipDir for a
single entry: access errors are logged and swallowed, files and non-hidden
directories return nil, hidden directories return SkipDir. -/
theorem walkEntry_result (w : Config) (pre : String) (e : FSEntry) (st : ScanState) :
    (walkEntry w pre e st).2 = WalkFnResult.ok ∨
      (walkEntry w pre e st).2 = WalkFnResult.skipDir := by
  match e with
  | .badEntry n => exact Or.inl rfl
  | .file n size mt => exact Or.inl rfl
  | .dir n es =>
      rw [walkEntry]
      by_cases h : hiddenDir n
      · simp [h]
      · simp only [h, Bool.false_eq_true, if_false]
        exact Or.inl (walkList_result w (joinRel pre n) es st)

/-- The loop over a directory's children always completes with a nil
error. -/
theorem walkList_result (w : Config) (pre : String) (es : List FSEntry) (st : ScanState) :
    (walkList w pre es st).2 = WalkFnResult.ok := by
  match es with
  | [] => rfl
  | e :: es' =>
      rw [walkList]
      rcases walkEntry_result w pre e st with h | h <;>
        · rw [h]
          exact walkList_result w pre es' _
end

/-- hashDir never returns a non-nil error: the callback swallows every
access error, including the failure to lstat the root, and a SkipDir at the
root is converted to nil by filepath.Walk. -/
theorem hashDir_err (w : Config) (root : WalkRoot) (prev : Nat) :
    (hashDir w root prev).err = none := by
  match root with
  | .inaccessible n => rfl
  | .rootDir n es =>
      rw [hashDir]
      by_cases h : hiddenDir n
      · simp [h]
      · simp only [h, Bool.false_eq_true, if_false]
        rw [walkList_result w "" es]

/-- depFold distributes over list append. -/
theorem depFold_append (cp : Bool × Nat) (l1 l2 : List Nat) :
    depFold cp (l1 ++ l2) = depFold (depFold cp l1) l2 := by
  induction l1 generalizing cp with
  | nil => rfl
  | cons mt ms ih => rw [List.cons_append, depFold, depFold, ih]

/-- Once the depChanged flag is set, depFold keeps it set. -/
theorem depFold_true (p : Nat) (ms : List Nat) : (depFold (true, p) ms).1 = true := by
  induction ms generalizing p with
  | nil => rfl
  | cons mt ms ih =>
      by_cases hm : mt = p
      · have h1 : depFold (true, p) (mt :: ms) = depFold (true, p) ms := by
          simp [depFold, hm]
        rw [h1]; exact ih p
      · have h1 : depFold (true, p) (mt :: ms) = depFold (true, mt) ms := by
          simp [depFold, hm]
        rw [h1]; exact ih mt

/-- Starting unset, depFold ends with the flag set exactly when some listed
time differs from the initially stored one. -/
theorem depFold_fst_iff (p0 : Nat) (ms : List Nat) :
    (depFold (false, p0) ms).1 = true ↔ ∃ mt ∈ ms, mt ≠ p0 := by
  induction ms with
  | nil => simp [depFold]
  | cons mt ms ih =>
      by_cases hm : mt = p0
      · have h1 : depFold (false, p0) (mt :: ms) = depFold (false, p0) ms := by
          simp [depFold, hm]
        rw [h1, ih]
        constructor
        · rintro ⟨m, hmem, hne⟩
          exact ⟨m, List.mem_cons_of_mem _ hmem, hne⟩
        · rintro ⟨m, hmem, hne⟩
          rcases List.mem_cons.mp hmem with rfl | hmem'
          · exact absurd hm hne
          · exact ⟨m, hmem', hne⟩
      · have h1 : depFold (false, p0) (mt :: ms) = depFold (true, mt) ms := by
          simp [depFold, hm]
        rw [h1]
        constructor
        · intro _
          exact ⟨mt, List.mem_cons_self mt ms, hm⟩
        · intro _
          exact depFold_true mt ms

/-- If depFold never fires, the stored time is returned unchanged. -/
theorem depFold_fst_false_snd (p0 : Nat) (ms : List Nat) :
    (depFold (false, p0) ms).1 = false → (depFold (false, p0) ms).2 = p0 := by
  induction ms with
  | nil => intro; rfl
  | cons mt ms ih =>
      by_cases hm : mt = p0
      · have h1 : depFold (false, p0) (mt :: ms) = depFold (false, p0) ms := by
          simp [depFold, hm]
        rw [h1]; exact ih
      · have h1 : depFold (false, p0) (mt :: ms) = depFold (true, mt) ms := by
          simp [depFold, hm]
        rw [h1, depFold_true]
        intro hc
        exact absurd hc (by decide)

/-- The time depFold returns is either the one it started with or one of
the listed times. -/
theorem depFold_snd_mem (cp : Bool × Nat) (ms : List Nat) :
    (depFold cp ms).2 = cp.2 ∨ (depFold cp ms).2 ∈ ms := by
  induction ms generalizing cp with
  | nil => exact Or.inl rfl
  | cons mt ms ih =>
      by_cases h2 : mt = cp.2
      · have h1 : depFold cp (mt :: ms) = depFold cp ms := by
          simp [depFold, h2]
        rw [h1]
        rcases ih cp with h3 | h3
        · exact Or.inl h3
        · exact Or.inr (List.mem_cons_of_mem _ h3)
      · have h1 : depFold cp (mt :: ms) = depFold (true, mt) ms := by
          simp [depFold, h2]
        rw [h1]
        rcases ih (true, mt) with h3 | h3
        · right
          rw [h3]
          exact List.mem_cons_self mt ms
        · exact Or.inr (List.mem_cons_of_mem _ h3)

mutual
/-- The dependency components of the walk state after one entry are the
depFold of the entry's dependency-relevant times over the incoming
components: rejected and non-matching files leave them alone, a matching
accepted file performs exactly one depFold step, hidden directories and
inaccessible entries contribute nothing. -/
theorem walkEntry_dep (w : Config) (pre : String) (e : FSEntry) (st : ScanState) :
    ((walkEntry w pre e st).1.depChanged, (walkEntry w pre e st).1.depMTime)
      = depFold (st.depChanged, st.depMTime) (depTimesEntry w pre e) := by
  match e with
  | .badEntry n => rfl
  | .file n size mt =>
      simp only [walkEntry, depTimesEntry]
      by_cases hsp : shouldProcess w (joinRel pre n) = true
      · by_cases hdf : (!(w.depFile == "") && n == baseName w.depFile) = true
        · by_cases hmt : mt = st.depMTime
          · simp [visitFile, depFold, hsp, hdf, hmt]
          · simp [visitFile, depFold, hsp, hdf, hmt]
        · simp [visitFile, depFold, hsp, hdf]
      · simp [visitFile, depFold, hsp]
  | .dir n es =>
      simp only [walkEntry, depTimesEntry]
      by_cases hh : hiddenDir n = true
      · simp [hh, depFold]
      · simp only [hh, Bool.false_eq_true, if_false]
        exact walkList_dep w (joinRel pre n) es st

/-- walkEntry_dep extended over a sibling list. -/
theorem walkList_dep (w : Config) (pre : String) (es : List FSEntry) (st : ScanState) :
    ((walkList w pre es st).1.depChanged, (walkList w pre es st).1.depMTime)
      = depFold (st.depChanged, st.depMTime) (depTimesList w pre es) := by
  match es with
  | [] => rfl
  | e :: es' =>
      rw [walkList, depTimesList, depFold_append]
      rcases walkEntry_result w pre e st with h | h <;>
      · simp only [h]
        rw [← walkEntry_dep w pre e st]
        exact walkList_dep w pre es' _
end

/-- The hash component visitFile produces depends on the incoming state
only through its hash: an accepted file appends its three writes, a
rejected file changes nothing, whatever the dependency branch does. -/
theorem visitFile_hash (w : Config) (rp n : String) (size mt : Nat) (st : ScanState) :
    (visitFile w rp n size mt st).hash
      = if shouldProcess w rp
        then fnvWrite (fnvWrite (fnvWrite st.hash rp) (toString size)) (toString mt)
        else st.hash := by
  by_cases hsp : shouldProcess w rp = true
  · by_cases hdf : (!(w.depFile == "") && n == baseName w.depFile) = true
    · by_cases hmt : mt = st.depMTime
      · simp [visitFile, hsp, hdf, hmt]
      · simp [visitFile, hsp, hdf, hmt]
    · simp [visitFile, hsp, hdf]
  · simp [visitFile, hsp]

mutual
/-- The digest accumulated by the walk is a function of the incoming hash
alone: two walks of the same entry from states with equal hashes end with
equal hashes, whatever their dependency components are. -/
theorem walkEntry_hash (w : Config) (pre : String) (e : FSEntry) (st st' : ScanState)
    (h : st.hash = st'.hash) :
    (walkEntry w pre e st).1.hash = (walkEntry w pre e st').1.hash := by
  match e with
  | .badEntry n => exact h
  | .file n size mt =>
      simp only [walkEntry]
      rw [visitFile_hash, visitFile_hash, h]
  | .dir n es =>
      simp only [walkEntry]
      by_cases hh : hiddenDir n = true
      · simp [hh, h]
      · simp only [hh, Bool.false_eq_true, if_false]
        exact walkList_hash w (joinRel pre n) es st st' h

/-- walkEntry_hash extended over a sibling list. -/
theorem walkList_hash (w : Config) (pre : String) (es : List FSEntry) (st st' : ScanState)
    (h : st.hash = st'.hash) :
    (walkList w pre es st).1.hash = (walkList w pre es st').1.hash := by
  match es with
  | [] => exact h
  | e :: es' =>
      rw [walkList, walkList]
      rcases walkEntry_result w pre e st with h1 | h1 <;>
        rcases walkEntry_result w pre e st' with h2 | h2 <;>
      · simp only [h1, h2]
        exact walkList_hash w pre es' _ _ (walkEntry_hash w pre e st st' h)
end

/-- The digest hashDir returns does not depend on the stored dependency
time handed to it. -/
theorem hashDir_hash_indep (w : Config) (root : WalkRoot) (p p' : Nat) :
    (hashDir w root p).hash = (hashDir w root p').hash := by
  match root with
  | .inaccessible n => rfl
  | .rootDir n es =>
      rw [hashDir, hashDir]
      by_cases hh : hiddenDir n = true
      · simp [hh]
      · simp only [hh, Bool.false_eq_true, if_false]
        have h1 := walkList_result w "" es ⟨fnvOffsetBasis, false, p⟩
        have h2 := walkList_result w "" es ⟨fnvOffsetBasis, false, p'⟩
        simp only [h1, h2]
        exact walkList_hash w "" es _ _ rfl

/-- The dependency components hashDir returns are the depFold of the
dependency-relevant times of the tree over the unset flag and the stored
time. -/
theorem hashDir_dep (w : Config) (root : WalkRoot) (prev : Nat) :
    ((hashDir w root prev).depChanged, (hashDir w root prev).depMTime)
      = depFold (false, prev) (depTimes w root) := by
  match root with
  | .inaccessible n => rfl
  | .rootDir n es =>
      rw [hashDir, depTimes]
      by_cases hh : hiddenDir n = true
      · simp [hh, depFold]
      · simp only [hh, Bool.false_eq_true, if_false]
        have h1 := walkList_result w "" es ⟨fnvOffsetBasis, false, prev⟩
        simp only [h1]
        exact walkList_dep w "" es ⟨fnvOffsetBasis, false, prev⟩

/-- supRun over a trace extended by one event steps once. -/
theorem supRun_concat (w : Config) (evs : List SupEv) (e : SupEv) :
    supRun w (evs ++ [e]) = supStep w (supRun w evs) e := by
  rw [supRun, supRun, List.foldl_append]
  rfl

/-- The supervisor handle is non-empty exactly when the last event of the
trace is a successful restart, and then it holds that restart's pid: every
event writes the handle without reading it, because the exit-watcher clears
unconditionally. -/
theorem supRun_some_iff (w : Config) (evs : List SupEv) (p : Nat) :
    supRun w evs = some p ↔ evs.getLast? = some (.restartOk p) := by
  induction evs using List.reverseRecOn with
  | nil => simp [supRun]
  | append_singleton es e ih =>
      rw [supRun_concat, List.getLast?_concat]
      cases e with
      | restartOk q => simp [supStep, startApp]
      | restartFail => simp [supStep, startApp]
      | appExit q => simp [supStep]

/-- spawnedPids distributes over append. -/
theorem spawnedPids_append (l1 l2 : List SupEv) :
    spawnedPids (l1 ++ l2) = spawnedPids l1 ++ spawnedPids l2 := by
  induction l1 with
  | nil => rfl
  | cons e l ih => cases e <;> simp [spawnedPids, ih]

/-- A pid is among the spawned ones exactly when its successful restart
event is in the trace. -/
theorem mem_spawnedPids (p : Nat) (evs : List SupEv) :
    p ∈ spawnedPids evs ↔ SupEv.restartOk p ∈ evs := by
  induction evs with
  | nil => simp [spawnedPids]
  | cons e l ih => cases e <;> simp [spawnedPids, ih]

/-- The last element of a list is an element of it. -/
theorem mem_of_getLast?_eq {α : Type} (l : List α) (a : α) (h : l.getLast? = some a) :
    a ∈ l := by
  rcases List.mem_getLast?_eq_getLast (l := l) (x := a) h with ⟨hne, hx⟩
  rw [hx]
  exact List.getLast_mem hne

/-- A fixed configuration with no dependency file and no rules, used by the
concrete instances below. -/
def cfg0 : Config := ⟨"make", "./app", [], [], "", ""⟩

/-- A fixed configuration watching a Go-style project with a dependency
file, used by the concrete instances below. -/
def cfgDep : Config := ⟨"go build", "./app", [], [], "go.mod", "go mod tidy"⟩

/-- A fixed configuration whose run command is the empty string. -/
def cfgEmptyRun : Config := ⟨"make", "", [], [], "", ""⟩

/-- A command environment in which every command line exits with status
zero. -/
def envZero : ExecEnv := fun _ => 0

/-- A command environment in which every command line exits with status
one. -/
def envOne : ExecEnv := fun _ => 1

/-- C4: shouldProcess returns true exactly when no exclude rule matches the
relative path as a prefix or suffix and, in addition, either the include
list is empty (default allow) or some include rule matches; in particular a
path matched by any exclude rule is rejected regardless of the include
rules, so exclusion always wins. -/
theorem shouldProcess_excludes_win (w : Config) (p : String) :
    shouldProcess w p = true ↔
      ((∀ ex ∈ w.excludes, matchesRule p ex = false)
        ∧ (w.includes = [] ∨ ∃ inc ∈ w.includes, matchesRule p inc = true)) := by
  rw [shouldProcess]
  cases hex : w.excludes.any (fun ex => matchesRule p ex) with
  | true =>
      simp only [hex, if_true]
      constructor
      · intro hc
        exact absurd hc (by decide)
      · rintro ⟨hall, -⟩
        rcases List.any_eq_true.mp hex with ⟨ex, hmem, hm⟩
        rw [hall ex hmem] at hm
        exact absurd hm (by decide)
  | false =>
      have hall : ∀ ex ∈ w.excludes, matchesRule p ex = false := by
        intro ex hmem
        cases hm : matchesRule p ex with
        | false => rfl
        | true =>
            rw [List.any_eq_true.mpr ⟨ex, hmem, hm⟩] at hex
            exact absurd hex (by decide)
      simp only [hex, Bool.false_eq_true, if_false]
      cases hinc : (w.includes.length == 0) with
      | true =>
          have hnil : w.includes = [] := by simpa using hinc
          simp only [hinc, if_true]
          exact ⟨fun _ => ⟨hall, Or.inl hnil⟩, fun _ => trivial⟩
      | false =>
          have hne : w.includes ≠ [] := by
            intro hn
            rw [hn] at hinc
            exact absurd hinc (by decide)
          simp only [hinc, Bool.false_eq_true, if_false]
          constructor
          · intro hany
            rcases List.any_eq_true.mp hany with ⟨inc, hmem, hm⟩
            exact ⟨hall, Or.inr ⟨inc, hmem, hm⟩⟩
          · rintro ⟨-, hnil | ⟨inc, hmem, hm⟩⟩
            · exact absurd hnil hne
            · exact List.any_eq_true.mpr ⟨inc, hmem, hm⟩

/-- Witness for C4 at a concrete configuration: with include rule .go and
exclude rule .git, the path a.go is accepted. -/
theorem shouldProcess_excludes_win_witness :
    shouldProcess ⟨"b", "r", [".go"], [".git"], "", ""⟩ "a.go" = true :=
  (shouldProcess_excludes_win ⟨"b", "r", [".go"], [".git"], "", ""⟩ "a.go").mpr (by decide)

/-- C2 counterexample: when the traversal cannot even start because the
root is inaccessible, hashDir returns a nil error — the callback receives
the failure, logs it and returns nil, and filepath.Walk then reports
success — rather than surfacing a non-nil error as claimed; the digest is
that of an empty accumulator and no dependency change is reported. -/
theorem root_error_swallowed_cex :
    (hashDir cfg0 (.inaccessible "app") 0).err = none
    ∧ (hashDir cfg0 (.inaccessible "app") 0).hash = fnvOffsetBasis
    ∧ (hashDir cfg0 (.inaccessible "app") 0).depChanged = false := by
  exact ⟨rfl, rfl, rfl⟩

/-- C2 amended: hashDir surfaces no error at all — per-entry access errors
and a top-level traversal-start failure alike are only logged and skipped,
so the error return is always nil and the WatchLoop's log-sleep-retry error
branch is unreachable. -/
theorem hashDir_never_errors (w : Config) (root : WalkRoot) (prev : Nat)
    (env : ExecEnv) (st : LoopState) :
    (hashDir w root prev).err = none ∧ (runCycle env w root st).scanErr = false := by
  refine ⟨hashDir_err w root prev, ?_⟩
  rw [runCycle]
  simp only [hashDir_err]
  cases hb : (!((hashDir w root st.prevDepMTime).hash == st.prevHash)) with
  | false => simp [hb]
  | true =>
      simp only [hb, if_true]
      cases hok : (runBuild env w (hashDir w root st.prevDepMTime).depChanged).ok with
      | false => simp [hok]
      | true => simp [hok]

/-- C1 counterexample: after restarting twice, the handle refers to the
second process, but when the first process's exit-watcher fires it clears
the handle anyway — the code assigns nil unconditionally — whereas under
the spec's clearIfMatches discipline the handle would still refer to the
second process. -/
theorem exit_watcher_clears_newer_cex :
    supRun cfg0 [.restartOk 1, .restartOk 2] = some 2
    ∧ supRun cfg0 [.restartOk 1, .restartOk 2, .appExit 1] = none
    ∧ clearIfMatchesRun cfg0 [.restartOk 1, .restartOk 2, .appExit 1] = some 2 := by
  exact ⟨rfl, rfl, rfl⟩

/-- C1 amended: the exit-watcher clears the handle unconditionally when its
process exits: whatever trace of restarts and exits came before, an appExit
event leaves no tracked process, even when a later restart had replaced the
handle with a newer process. -/
theorem exit_watcher_clears_unconditionally (w : Config) (evs : List SupEv) (p : Nat) :
    supRun w (evs ++ [.appExit p]) = none := by
  rw [supRun_concat]
  rfl

/-- C9: runShell on the empty string reports success and spawns nothing;
on a non-empty string it spawns exactly one shell carrying that string as
its command line and reports success exactly when the command exits with
status zero. -/
theorem runShell_contract (env : ExecEnv) :
    runShell env "" = ⟨true, []⟩
    ∧ ∀ c : String, c ≠ "" →
        (runShell env c).spawned = [c] ∧ ((runShell env c).ok = true ↔ env c = 0) := by
  refine ⟨rfl, fun c hc => ?_⟩
  rw [runShell, if_neg hc]
  exact ⟨rfl, by simp⟩

/-- Witness for C9 at a concrete non-empty command in a concrete
environment. -/
theorem runShell_contract_witness :
    (runShell envZero "ls").spawned = ["ls"]
    ∧ ((runShell envZero "ls").ok = true ↔ envZero "ls" = 0) :=
  (runShell_contract envZero).2 "ls" (by decide)

/-- C10: startApp performs no emptiness check on the run command: with the
run command equal to the empty string it still hands that empty command
line to a shell and stores the new process's handle, while runShell — the
only place with the empty-command no-op rule — spawns nothing for the empty
string. -/
theorem startApp_spawns_empty_command (env : ExecEnv) (cur : Option Nat) (pid : Nat)
    (w : Config) (hrun : w.runCmd = "") :
    (startApp w cur true pid).newProcess = some pid
    ∧ (startApp w cur true pid).shellSpawns = [""]
    ∧ (runShell env "").spawned = [] := by
  refine ⟨rfl, ?_, rfl⟩
  rw [startApp]
  simp [hrun]

/-- Witness for C10 at the concrete configuration whose run command is
empty. -/
theorem startApp_spawns_empty_command_witness :
    (startApp cfgEmptyRun none true 7).newProcess = some 7
    ∧ (startApp cfgEmptyRun none true 7).shellSpawns = [""]
    ∧ (runShell envZero "").spawned = [] :=
  startApp_spawns_empty_command envZero none 7 cfgEmptyRun rfl

/-- If depFold fires, the time it returns is one of the listed times (the
one of the last update). -/
theorem depFold_changed_snd_mem (p0 : Nat) (ms : List Nat) :
    (depFold (false, p0) ms).1 = true → (depFold (false, p0) ms).2 ∈ ms := by
  induction ms with
  | nil =>
      intro h
      simp [depFold] at h
  | cons mt ms ih =>
      by_cases hm : mt = p0
      · have h1 : depFold (false, p0) (mt :: ms) = depFold (false, p0) ms := by
          simp [depFold, hm]
        rw [h1]
        intro h
        exact List.mem_cons_of_mem _ (ih h)
      · have h1 : depFold (false, p0) (mt :: ms) = depFold (true, mt) ms := by
          simp [depFold, hm]
        rw [h1]
        intro _
        rcases depFold_snd_mem (true, mt) ms with h2 | h2
        · rw [h2]
          exact List.mem_cons_self mt ms
        · exact List.mem_cons_of_mem _ h2

/-- C3: in a cycle whose computed digest differs from the stored
fingerprint, the stored fingerprint is overwritten with the new digest
whatever the dependency, build or start outcomes are — the environment env
is arbitrary, so a failed build does not roll it back — and a following
cycle over the identical tree (under any environment env2) compares equal
and takes no step at all, in particular it does not re-attempt the build. -/
theorem fingerprint_committed_before_build (env env2 : ExecEnv) (w : Config)
    (root : WalkRoot) (st : LoopState)
    (hch : (hashDir w root st.prevDepMTime).hash ≠ st.prevHash) :
    (runCycle env w root st).st.prevHash = (hashDir w root st.prevDepMTime).hash
    ∧ (runCycle env2 w root (runCycle env w root st).st).trace = [] := by
  have hb : (!((hashDir w root st.prevDepMTime).hash == st.prevHash)) = true := by
    simp [hch]
  have h1 : (runCycle env w root st).st.prevHash = (hashDir w root st.prevDepMTime).hash := by
    rw [runCycle]
    simp only [hashDir_err, hb, if_true]
    cases hok : (runBuild env w (hashDir w root st.prevDepMTime).depChanged).ok with
    | false => simp [hok]
    | true => simp [hok]
  refine ⟨h1, ?_⟩
  rw [runCycle]
  simp only [hashDir_err]
  have hh2 : (hashDir w root (runCycle env w root st).st.prevDepMTime).hash
      = (hashDir w root st.prevDepMTime).hash := hashDir_hash_indep w root _ _
  have heq : (!((hashDir w root (runCycle env w root st).st.prevDepMTime).hash
      == (runCycle env w root st).st.prevHash)) = false := by
    rw [hh2, h1]
    simp
  simp [heq]

/-- Witness for C3: a concrete changed cycle whose build fails (every
command exits with status one), after which the fingerprint holds the new
digest and the next cycle over the identical tree does nothing. -/
theorem fingerprint_committed_before_build_witness :
    (runCycle envOne cfg0 (.rootDir "." [.file "a" 1 2]) ⟨0, 0⟩).st.prevHash
        = (hashDir cfg0 (.rootDir "." [.file "a" 1 2]) 0).hash
    ∧ (runCycle envOne cfg0 (.rootDir "." [.file "a" 1 2])
        (runCycle envOne cfg0 (.rootDir "." [.file "a" 1 2]) ⟨0, 0⟩).st).trace = [] :=
  fingerprint_committed_before_build envOne envOne cfg0
    (.rootDir "." [.file "a" 1 2]) ⟨0, 0⟩ (by decide)

/-- C6: with a dependency file configured, hashDir reports a dependency
change exactly when some traversed file that passes the exclude and include
filter, has the dependency file's base name, and carries a modification
time different from the stored one exists (depTimes lists exactly those
files' times, in traversal order); when no change is reported the stored
time is returned unchanged, and when one is reported the returned time is
one of those files' times; and the loop commits the returned time to its
state in every branch, independent of the build outcome.  The hypothesis
that a dependency file is configured mirrors the claim; the equivalence
holds even without it, because with an empty depFile no file is
dependency-relevant and no change is ever reported. -/
theorem dep_detection (w : Config) (root : WalkRoot) (prev : Nat)
    (_hdep : w.depFile ≠ "") :
    ((hashDir w root prev).depChanged = true ↔ ∃ mt ∈ depTimes w root, mt ≠ prev)
    ∧ ((hashDir w root prev).depChanged = false → (hashDir w root prev).depMTime = prev)
    ∧ ((hashDir w root prev).depChanged = true → (hashDir w root prev).depMTime ∈ depTimes w root)
    ∧ (∀ env : ExecEnv, ∀ st : LoopState, st.prevDepMTime = prev →
        (runCycle env w root st).st.prevDepMTime = (hashDir w root prev).depMTime) := by
  have hd := hashDir_dep w root prev
  have hfst : (hashDir w root prev).depChanged = (depFold (false, prev) (depTimes w root)).1 :=
    congrArg Prod.fst hd
  have hsnd : (hashDir w root prev).depMTime = (depFold (false, prev) (depTimes w root)).2 :=
    congrArg Prod.snd hd
  refine ⟨?_, ?_, ?_, ?_⟩
  · rw [hfst]
    exact depFold_fst_iff prev _
  · rw [hfst, hsnd]
    exact depFold_fst_false_snd prev _
  · rw [hfst, hsnd]
    exact depFold_changed_snd_mem prev _
  · intro env st hst
    subst hst
    rw [runCycle]
    simp only [hashDir_err]
    cases hb : (!((hashDir w root st.prevDepMTime).hash == st.prevHash)) with
    | false => simp [hb]
    | true =>
        simp only [hb, if_true]
        cases hok : (runBuild env w (hashDir w root st.prevDepMTime).depChanged).ok with
        | false => simp [hok]
        | true => simp [hok]

/-- Witness for C6: scanning a root holding the dependency file go.mod
whose time 7 differs from the stored time 0 reports a change. -/
theorem dep_detection_witness :
    (hashDir cfgDep (.rootDir "." [.file "go.mod" 3 7]) 0).depChanged = true :=
  (dep_detection cfgDep (.rootDir "." [.file "go.mod" 3 7]) 0 (by decide)).1.mpr
    ⟨7, by decide, by decide⟩

/-- C8: the supervisor tracks at most one handle at any observation point
(the two ways of reading the current handle agree on the pid), and a
predecessor that a restart killed and cleared never reappears as the
current handle at any later point, assuming process identities are fresh
(the pids of the successful restarts in the trace are pairwise distinct,
as the pointers of distinct exec.Cmd values are). -/
theorem supervisor_single_instance (w : Config) (t1 t2 : List SupEv) (p q : Nat)
    (h1 : supRun w t1 = some p)
    (hnd : (spawnedPids (t1 ++ SupEv.restartOk q :: t2)).Nodup) :
    (∀ a b : Nat, supRun w (t1 ++ SupEv.restartOk q :: t2) = some a →
        supRun w (t1 ++ SupEv.restartOk q :: t2) = some b → a = b)
    ∧ supRun w (t1 ++ SupEv.restartOk q :: t2) ≠ some p := by
  constructor
  · intro a b ha hb
    rw [ha] at hb
    exact Option.some.inj hb
  · intro hc
    have hp1 : p ∈ spawnedPids t1 :=
      (mem_spawnedPids p t1).mpr
        (mem_of_getLast?_eq t1 _ ((supRun_some_iff w t1 p).mp h1))
    have hc1 : (SupEv.restartOk q :: t2).getLast? = some (.restartOk p) := by
      rw [← List.getLast?_append_cons t1 (SupEv.restartOk q) t2]
      exact (supRun_some_iff w _ p).mp hc
    have hp2 : p ∈ spawnedPids (SupEv.restartOk q :: t2) :=
      (mem_spawnedPids p _).mpr (mem_of_getLast?_eq _ _ hc1)
    rw [spawnedPids_append] at hnd
    exact List.disjoint_of_nodup_append hnd hp1 hp2

/-- Witness for C8: after restart 1 then restart 2 with fresh pids, the
handle of killed process 1 is not current. -/
theorem supervisor_single_instance_witness :
    supRun cfg0 ([SupEv.restartOk 1] ++ SupEv.restartOk 2 :: []) ≠ some 1 :=
  (supervisor_single_instance cfg0 [SupEv.restartOk 1] [] 1 2 (by decide) (by decide)).2

/-- C5 counterexample: a root directory whose own name begins with the
hidden marker (here the name .h) is not traversed at all: the file below it
contributes nothing, the digest equals the digest of the same hidden root
with no files, namely the empty-accumulator digest, whereas the identical
tree under the non-hidden root name s hashes the file.  The exemption at
line 79 covers only the literal one-dot name, not every root name. -/
theorem hidden_root_skipped_cex :
    (hashDir cfg0 (.rootDir ".h" [.file "a" 1 0]) 0).hash = fnvOffsetBasis
    ∧ (hashDir cfg0 (.rootDir ".h" [.file "a" 1 0]) 0).hash
        = (hashDir cfg0 (.rootDir ".h" []) 0).hash
    ∧ (hashDir cfg0 (.rootDir "s" [.file "a" 1 0]) 0).hash ≠ fnvOffsetBasis := by
  refine ⟨rfl, rfl, by decide⟩

/-- C5 amended: every directory whose name begins with the hidden marker
and is not literally the one-dot name is skipped together with its whole
subtree — and the root enjoys no general exception: a hidden root name
other than the one-dot name yields an empty scan.  The one-dot name is
never hidden, and the root's name has no other influence; since main
hardcodes the watch directory to the one-dot path, the root is always
traversed in the program's actual configuration, but not "regardless of
name" as claimed. -/
theorem hidden_dirs_skipped (w : Config) (prev : Nat) :
    (∀ (pre n : String) (es : List FSEntry) (st : ScanState), hiddenDir n = true →
        walkEntry w pre (.dir n es) st = (st, .skipDir))
    ∧ (∀ (n : String) (es : List FSEntry), hiddenDir n = true →
        hashDir w (.rootDir n es) prev = ⟨fnvOffsetBasis, false, prev, none⟩)
    ∧ hiddenDir "." = false
    ∧ (∀ (n : String) (es : List FSEntry), hiddenDir n = false →
        hashDir w (.rootDir n es) prev = hashDir w (.rootDir "." es) prev) := by
  refine ⟨?_, ?_, rfl, ?_⟩
  · intro pre n es st hh
    rw [walkEntry]
    simp [hh]
  · intro n es hh
    rw [hashDir]
    simp [hh]
  · intro n es hh
    rw [hashDir, hashDir]
    simp only [hh, (by decide : hiddenDir "." = false), Bool.false_eq_true, if_false]

/-- Witness for C5 at a concrete hidden directory name: a .git root is
scanned to nothing. -/
theorem hidden_dirs_skipped_witness :
    hashDir cfg0 (.rootDir ".git" [.file "a" 1 0]) 0 = ⟨fnvOffsetBasis, false, 0, none⟩ :=
  (hidden_dirs_skipped cfg0 0).2.1 ".git" [.file "a" 1 0] (by decide)

/-- In a changed cycle the trace is the runBuild trace, extended by the
restart step exactly when runBuild succeeded. -/
theorem runCycle_trace_changed (env : ExecEnv) (w : Config) (root : WalkRoot) (st : LoopState)
    (hch : (hashDir w root st.prevDepMTime).hash ≠ st.prevHash) :
    (runCycle env w root st).trace
      = (if (runBuild env w (hashDir w root st.prevDepMTime).depChanged).ok
         then (runBuild env w (hashDir w root st.prevDepMTime).depChanged).trace
            ++ [Action.restartStep]
         else (runBuild env w (hashDir w root st.prevDepMTime).depChanged).trace) := by
  have hb : (!((hashDir w root st.prevDepMTime).hash == st.prevHash)) = true := by
    simp [hch]
  rw [runCycle]
  simp only [hashDir_err, hb, if_true]
  cases hok : (runBuild env w (hashDir w root st.prevDepMTime).depChanged).ok with
  | true => simp [hok]
  | false => simp [hok]

/-- C7: within one changed cycle, the dependency step appears in the trace
exactly when depChanged holds and a dependency command is configured; if
the dependency command fails, neither the build step nor the restart step
runs that cycle; the restart step runs only when the build command reported
success; and the steps are ordered dependency step before build step before
restart step. -/
theorem cycle_step_ordering (env : ExecEnv) (w : Config) (root : WalkRoot) (st : LoopState)
    (hch : (hashDir w root st.prevDepMTime).hash ≠ st.prevHash) :
    (Action.depStep ∈ (runCycle env w root st).trace
        ↔ ((hashDir w root st.prevDepMTime).depChanged = true ∧ w.depCmd ≠ ""))
    ∧ (((hashDir w root st.prevDepMTime).depChanged = true ∧ w.depCmd ≠ ""
          ∧ (runShell env w.depCmd).ok = false) →
        (Action.buildStep ∉ (runCycle env w root st).trace
          ∧ Action.restartStep ∉ (runCycle env w root st).trace))
    ∧ (Action.restartStep ∈ (runCycle env w root st).trace →
        ((runShell env w.buildCmd).ok = true
          ∧ Action.buildStep ∈ (runCycle env w root st).trace))
    ∧ ((runCycle env w root st).trace.indexOf Action.depStep
          < (runCycle env w root st).trace.indexOf Action.buildStep
        ∨ Action.depStep ∉ (runCycle env w root st).trace)
    ∧ (Action.restartStep ∈ (runCycle env w root st).trace →
        (runCycle env w root st).trace.indexOf Action.buildStep
          < (runCycle env w root st).trace.indexOf Action.restartStep) := by
  rw [runCycle_trace_changed env w root st hch, runBuild]
  cases hdc : ((hashDir w root st.prevDepMTime).depChanged && !(w.depCmd == "")) with
  | true =>
      have hdc' : (hashDir w root st.prevDepMTime).depChanged = true ∧ w.depCmd ≠ "" := by
        have h := hdc
        simp at h
        exact h
      simp only [hdc, if_true]
      cases hde : (runShell env w.depCmd).ok with
      | true =>
          simp only [hde, if_true]
          cases hbo : (runShell env w.buildCmd).ok with
          | true =>
              simp only [hbo, if_true]
              refine ⟨⟨fun _ => hdc', fun _ => by decide⟩, ?_, ?_, ?_, ?_⟩
              · rintro ⟨-, -, hdf⟩
                exact absurd hdf (by decide)
              · intro _
                exact ⟨trivial, by decide⟩
              · left
                decide
              · intro _
                decide
          | false =>
              simp only [hbo, Bool.false_eq_true, if_false]
              refine ⟨⟨fun _ => hdc', fun _ => by decide⟩, ?_, ?_, ?_, ?_⟩
              · rintro ⟨-, -, hdf⟩
                exact absurd hdf (by decide)
              · intro h
                exact absurd h (by decide)
              · left
                decide
              · intro h
                exact absurd h (by decide)
      | false =>
          simp only [hde, Bool.false_eq_true, if_false]
          refine ⟨⟨fun _ => hdc', fun _ => by decide⟩, ?_, ?_, ?_, ?_⟩
          · intro _
            exact ⟨by decide, by decide⟩
          · intro h
            exact absurd h (by decide)
          · left
            decide
          · intro h
            exact absurd h (by decide)
  | false =>
      have hdc' : ¬((hashDir w root st.prevDepMTime).depChanged = true ∧ w.depCmd ≠ "") := by
        rintro ⟨hx, hy⟩
        have hb2 : (!(w.depCmd == "")) = true := by simp [hy]
        rw [hx, hb2] at hdc
        exact absurd hdc (by decide)
      simp only [hdc, Bool.false_eq_true, if_false]
      cases hbo : (runShell env w.buildCmd).ok with
      | true =>
          simp only [hbo, if_true]
          refine ⟨⟨fun h => absurd h (by decide), fun h => absurd h hdc'⟩, ?_, ?_, ?_, ?_⟩
          · rintro ⟨hx, hy, -⟩
            exact absurd ⟨hx, hy⟩ hdc'
          · intro _
            exact ⟨trivial, by decide⟩
          · right
            decide
          · intro _
            decide
      | false =>
          simp only [hbo, Bool.false_eq_true, if_false]
          refine ⟨⟨fun h => absurd h (by decide), fun h => absurd h hdc'⟩, ?_, ?_, ?_, ?_⟩
          · rintro ⟨hx, hy, -⟩
            exact absurd ⟨hx, hy⟩ hdc'
          · intro h
            exact absurd h (by decide)
          · right
            decide
          · intro h
            exact absurd h (by decide)

/-- Witness for C7: a concrete changed cycle with a modified dependency
file and an all-succeeding environment runs the dependency step. -/
theorem cycle_step_ordering_witness :
    Action.depStep ∈ (runCycle envZero cfgDep (.rootDir "." [.file "go.mod" 3 7]) ⟨0, 0⟩).trace :=
  (cycle_step_ordering envZero cfgDep (.rootDir "." [.file "go.mod" 3 7]) ⟨0, 0⟩
    (by decide)).1.mpr ⟨by decide, by decide⟩

end PolyWatcher
